import Mathlib

/-
Verification of the strategyQA search-policy configuration
(examples/rap_strategyQA/search_config.py): action proposal with batched
sampling, first-step extraction, forced-termination and normalisation
phases, order-preserving deduplication, and the two-stage reward model.

Conventions of the shallow embedding:
* Strings are Lean `String`s (a wrapper around `List Char`); Python string
  operations (strip, lower, substring test, single-pass replace, slicing)
  are defined below on the character lists, mirroring CPython semantics.
* Uncaught Python exceptions (TypeError on an unbound overall question,
  IndexError in the first-step extraction, ValueError on a zero batch
  size, AttributeError on lowering an unbound question, AssertionError in
  reward) are modelled as `none` in an `Option` result.
* The external language model (generation and next-token logits) and the
  external text utility extracting quoted sub-questions are parameters:
  an `LM` structure and an `ext : String → List String` function.
* Rewards, logits and probabilities are real numbers; the Python float
  power on nonnegative bases is modelled by `Real.rpow` (which agrees
  with CPython on the relevant points, in particular 0.0 ** 0.0 = 1.0).
-/

set_option maxRecDepth 4000

namespace StrategyQA

/-- Python str.strip: remove leading and trailing whitespace. -/
def pyStrip (s : String) : String :=
  ⟨((s.data.dropWhile Char.isWhitespace).reverse.dropWhile Char.isWhitespace).reverse⟩

/-- Python str.lower (ASCII case folding). -/
def pyLower (s : String) : String := ⟨s.data.map Char.toLower⟩

/-- Helper for the Python substring test on character lists. -/
def hasSubstrChars (needle : List Char) : List Char → Bool
  | [] => needle.isEmpty
  | c :: t => needle.isPrefixOf (c :: t) || hasSubstrChars needle t

/-- Python needle in hay substring test. -/
def hasSubstr (hay needle : String) : Bool := hasSubstrChars needle.data hay.data

/-- One left-to-right pass deleting non-overlapping occurrences of `pat`,
exactly as CPython str.replace with an empty replacement; the fuel only
bounds the recursion and is always supplied as the length of the text. -/
def removeAllFuel (pat : List Char) : Nat → List Char → List Char
  | 0, s => s
  | _ + 1, [] => []
  | fuel + 1, c :: t =>
      if pat.isPrefixOf (c :: t) then removeAllFuel pat fuel (t.drop (pat.length - 1))
      else c :: removeAllFuel pat fuel t

/-- Python s.replace(pat, "") (line 122 uses this with a fixed literal). -/
def pyRemoveAll (s pat : String) : String :=
  if pat.data.isEmpty then s else ⟨removeAllFuel pat.data s.data.length s.data⟩

/-- Python list(dict.fromkeys(l)) (line 111): order-preserving
first-occurrence deduplication. -/
def dedupFirst : List String → List String
  | [] => []
  | x :: xs => x :: (dedupFirst xs).filter (fun y => y != x)

/-- mapM specialised to `Option`: fails as soon as one element fails. -/
def optMapM {α β : Type} (f : α → Option β) : List α → Option (List β)
  | [] => some []
  | x :: xs => (f x).bind fun y => (optMapM f xs).map fun ys => y :: ys

/-- Python range(0, n, bs) for a positive step (line 78). -/
def batchIdxs (n bs : Nat) : List Nat :=
  (List.range ((n + bs - 1) / bs)).map (fun i => i * bs)

/-- External language model interface. `sample prompt temp slot` is the text
sampled for the given prompt at the given global request slot (slots are
numbered in request order across one proposal call); `logits prompt cands`
gives one raw next-token logit per candidate token. -/
structure LM where
  sample : String → ℚ → Nat → String
  logits : String → List String → List ℝ

/-- One generate call: one output per prompt, slots numbered from `off` in
request order. -/
def LM.generateB (lm : LM) (temp : ℚ) (off : Nat) (prompts : List String) : List String :=
  List.zipWith (fun p j => lm.sample p temp (off + j)) prompts (List.range prompts.length)

/-- The batched generation loop of get_actions (lines 77-84): strictly
sequential batches of at most `bs` copies of the same prompt, outputs
concatenated in request order. -/
def batchedGenerate (lm : LM) (temp : ℚ) (prompt : String) (n bs : Nat) : List String :=
  (batchIdxs n bs).flatMap fun idx =>
    lm.generateB temp idx (List.replicate (min (n - idx) bs) prompt)

/-- The list of prompts requested by the batched loop, in request order. -/
def batchedRequests (prompt : String) (n bs : Nat) : List String :=
  (batchIdxs n bs).flatMap fun idx => List.replicate (min (n - idx) bs) prompt

/-- The decomposition prompt template (the `prompt` dict of the source);
the two per-step slots are format patterns taking a 1-based index. -/
structure DecompPrompt where
  input : String
  questionPfx : String
  subqPfx : Nat → String
  ansPfx : Nat → String
  overallQuestionPfx : String

/-- The usefulness prompt template (`useful_prompt` dict of the source). -/
structure UsefulPrompt where
  input : String
  questionPfx : String
  subqPfx : Nat → String
  newSubqPfx : Nat → String
  usefulPfx : String

/-- A reasoning state: ordered (sub-question, sub-answer, confidence)
triples; the policy only reads the two text components. -/
abbrev State := List (String × String × Option ℚ)

/-- The configuration state of strategyQAConfig (fields set in lines
21-50); `exampleText` models self.example, and `overallQuestion` is
`none` while unbound (Python None). -/
structure Config where
  promptD : DecompPrompt
  usefulP : UsefulPrompt
  decomposePrompt : String
  nActions : Nat
  batchSize : Nat
  temperature : ℚ
  rewardAlpha : ℝ
  rewardConfidenceDefault : ℝ
  depthLimit : Nat
  forceTerminatingOnDepthLimit : Bool
  forceOverallPromptOnOverallQuestion : Bool
  forceOverallQuestionOnOverallPrompt : Bool
  exampleText : String
  overallQuestion : Option String

/-- update_example (lines 52-57). Storing the example text is the base
class part (modelled from the spec: update_example rebinds the episode
input text); the overall question is bound, to the full example text, only
under one of the two forcing flags. -/
def Config.update_example (cfg : Config) (ex : String) : Config :=
  { cfg with
    exampleText := ex
    overallQuestion :=
      if cfg.forceOverallPromptOnOverallQuestion || cfg.forceOverallQuestionOnOverallPrompt
      then some ex else cfg.overallQuestion }

/-- Line 70: the walrus condition guarding forced termination. -/
def atDepthLimit (cfg : Config) (state : State) : Bool :=
  cfg.forceTerminatingOnDepthLimit && decide (state.length + 1 ≥ cfg.depthLimit)

/-- Line 75: the number of samples actually requested. -/
def effNActions (cfg : Config) (state : State) : Nat :=
  if atDepthLimit cfg state then 1 else cfg.nActions

/-- Line 76: the sampling temperature actually used. -/
def effTemperature (cfg : Config) (state : State) : ℚ :=
  if atDepthLimit cfg state then 0 else cfg.temperature

/-- Lines 66-68: the numbered sub-question and answer lines for each state
entry, with 1-based indices. -/
def stateLines (cfg : Config) : Nat → State → String
  | _, [] => ""
  | i, (q, a, _) :: rest =>
      cfg.promptD.subqPfx i ++ " " ++ q ++ "\n" ++
      cfg.promptD.ansPfx i ++ " " ++ a ++ "\n" ++ stateLines cfg (i + 1) rest

/-- Lines 60-73: the generation prompt. `none` models the TypeError of
concatenating the unbound (None) overall question on an empty state. -/
def buildPrompt (cfg : Config) (state : State) : Option String :=
  (if state.length = 0 then
      cfg.overallQuestion.map fun oq =>
        cfg.decomposePrompt ++ "\n\nQ: " ++ oq ++ "\nA: To answer the question \"" ++ oq
          ++ "\", we need to know:"
    else
      some (cfg.promptD.input ++ cfg.promptD.questionPfx ++ cfg.exampleText ++ "\n" ++
        stateLines cfg 1 state ++ cfg.promptD.subqPfx (state.length + 1))).map
    fun base =>
      if atDepthLimit cfg state then base ++ " " ++ cfg.promptD.overallQuestionPfx else base

/-- Line 94-95: append a double quote unless the last character is one. -/
def quoteAppend (l : List Char) : List Char :=
  if l.getLast? ≠ some '"' then l ++ ['"'] else l

/-- Lines 92-97 on a nonempty first item: prepend a double quote unless
the first character is one, then quoteAppend, then the slice [1:-1]. -/
def quoteNormalize (c : Char) (cs : List Char) : List Char :=
  ((quoteAppend (if c ≠ '"' then '"' :: c :: cs else c :: cs)).drop 1).dropLast

/-- First-step post-processing of one output (lines 88-97): take the first
extracted sub-question and normalise its quoting. `none` models the
uncaught IndexError on an empty extraction list and on an empty first
item. -/
def firstStepExtract (ext : String → List String) (out : String) : Option String :=
  match ext out with
  | [] => none
  | q1 :: _ =>
    match q1.data with
    | [] => none
    | c :: cs => some ⟨quoteNormalize c cs⟩

/-- Lines 60-86: build the prompt, run the batched generation loop, strip
every output. `none` also models the ValueError of range with step 0. -/
def rawStripped (cfg : Config) (lm : LM) (state : State) : Option (List String) :=
  (buildPrompt cfg state).bind fun prompt =>
    if cfg.batchSize = 0 then none
    else some ((batchedGenerate lm (effTemperature cfg state) prompt
      (effNActions cfg state) cfg.batchSize).map pyStrip)

/-- Lines 87-97: on an empty state, apply first-step extraction to every
output; any failing element aborts the whole call. -/
def extractPhase (ext : String → List String) (state : State) (outs : List String) :
    Option (List String) :=
  if state.length = 0 then optMapM (firstStepExtract ext) outs else some outs

/-- Lines 98-99: at the depth limit prepend the overall-question-prefix
token and a space to every output. -/
def depthPfxPhase (cfg : Config) (state : State) (outs : List String) : List String :=
  if atDepthLimit cfg state then
    outs.map fun o => cfg.promptD.overallQuestionPfx ++ " " ++ o
  else outs

/-- Lines 100-103: replace any output containing the overall-question-prefix
token by the canonical prefixed overall question. `none` models the
TypeError of concatenating the unbound overall question at a replacement
site. -/
def forceQPhase (cfg : Config) (outs : List String) : Option (List String) :=
  if cfg.forceOverallQuestionOnOverallPrompt then
    optMapM (fun o =>
      if hasSubstr o cfg.promptD.overallQuestionPfx then
        cfg.overallQuestion.map fun oq => cfg.promptD.overallQuestionPfx ++ " " ++ oq
      else some o) outs
  else some outs

/-- Lines 104-107: replace outputs case-insensitively equal to the overall
question by the canonical prefixed form; lowering the unbound overall
question fails (AttributeError) before the comparison. -/
def forcePPhase (cfg : Config) (outs : List String) : Option (List String) :=
  if cfg.forceOverallPromptOnOverallQuestion then
    optMapM (fun o =>
      cfg.overallQuestion.map fun oq =>
        if pyLower oq == pyLower o then cfg.promptD.overallQuestionPfx ++ " " ++ oq
        else o) outs
  else some outs

/-- Lines 60-107: everything get_actions does before deduplication. -/
def postPipeline (cfg : Config) (lm : LM) (ext : String → List String) (state : State) :
    Option (List String) :=
  (rawStripped cfg lm state).bind fun o1 =>
    (extractPhase ext state o1).bind fun o2 =>
      (forceQPhase cfg (depthPfxPhase cfg state o2)).bind fun o3 =>
        forcePPhase cfg o3

/-- strategyQAConfig.get_actions (lines 59-112). -/
def Config.get_actions (cfg : Config) (lm : LM) (ext : String → List String)
    (state : State) : Option (List String) :=
  (postPipeline cfg lm ext state).map dedupFirst

/-- calculate_reward (lines 132-136): weighted geometric mean of the
usefulness probability and the confidence (defaulted when absent),
returned with its components mapping. -/
noncomputable def Config.calculate_reward (cfg : Config) (r_useful : ℝ) (r_conf : Option ℝ) :
    ℝ × List (String × ℝ) :=
  let rc := r_conf.getD cfg.rewardConfidenceDefault
  (r_useful ^ cfg.rewardAlpha * rc ^ (1 - cfg.rewardAlpha),
    [("r_useful", r_useful), ("r_conf", rc)])

/-- reward (lines 138-143): both components are required by assertions;
a missing component yields no value at all. -/
noncomputable def Config.reward (cfg : Config) (_state : State) (_action : String)
    (r_useful : Option ℝ) (confidence : Option ℝ) : Option (ℝ × List (String × ℝ)) :=
  match r_useful, confidence with
  | some ru, some c => some (cfg.calculate_reward ru (some c))
  | _, _ => none

/-- Lines 118-119: the numbered sub-question lines of the usefulness
prompt, with 1-based indices. -/
def usefulLines (cfg : Config) : Nat → State → String
  | _, [] => ""
  | i, (q, _, _) :: rest =>
      cfg.usefulP.subqPfx i ++ " " ++ q ++ "\n" ++ usefulLines cfg (i + 1) rest

/-- The literal stripped from the usefulness prompt (line 122). -/
def answerLeadIn : String := "Now we can answer the question: "

/-- Lines 115-121: the assembled usefulness prompt, before the
replacement. -/
def usefulAssembled (cfg : Config) (state : State) (action : String) : String :=
  cfg.usefulP.input ++ cfg.usefulP.questionPfx ++ cfg.exampleText ++ "\n" ++
    usefulLines cfg 1 state ++
    cfg.usefulP.newSubqPfx (state.length + 1) ++ " " ++ action ++ "\n" ++
    cfg.usefulP.usefulPfx

/-- Line 122: the prompt actually sent for usefulness scoring. -/
def usefulModelInput (cfg : Config) (state : State) (action : String) : String :=
  pyRemoveAll (usefulAssembled cfg state action) answerLeadIn

/-- Lines 126-127: softmax over the logit list (numpy exp and sum). -/
noncomputable def softmaxList (ls : List ℝ) : List ℝ :=
  ls.map fun x => Real.exp x / (ls.map Real.exp).sum

/-- fast_reward (lines 114-130): score the action with the probability
mass on Yes over the two candidate tokens, combine it with the default
confidence, and report the usefulness component. -/
noncomputable def Config.fast_reward (cfg : Config) (lm : LM) (state : State)
    (action : String) : ℝ × List (String × ℝ) :=
  ((cfg.calculate_reward
      ((softmaxList (lm.logits (usefulModelInput cfg state action) ["Yes", "No"])).getD 0 0)
      none).1,
    [("r_useful",
      (softmaxList (lm.logits (usefulModelInput cfg state action) ["Yes", "No"])).getD 0 0)])

section Batching

lemma batchIdxs_zero (bs : Nat) : batchIdxs 0 bs = [] := by
  unfold batchIdxs
  rcases Nat.eq_zero_or_pos bs with rfl | h
  · rfl
  · rw [Nat.zero_add, Nat.div_eq_of_lt (by omega)]
    rfl

lemma ceilDiv_succ {n bs : Nat} (hbs : 0 < bs) (hn : 0 < n) :
    (n + bs - 1) / bs = (n - bs + bs - 1) / bs + 1 := by
  have h1 : n + bs - 1 = (n - 1) + bs := by omega
  rw [h1, Nat.add_div_right _ hbs]
  rcases le_or_lt n bs with h | h
  · have h2 : n - bs = 0 := by omega
    rw [h2, Nat.zero_add, Nat.div_eq_of_lt (by omega), Nat.div_eq_of_lt (by omega)]
  · have h3 : n - bs + bs - 1 = (n - bs - 1) + bs := by omega
    rw [h3, Nat.add_div_right _ hbs,
      Nat.div_eq_sub_div hbs (show bs ≤ n - 1 by omega),
      show n - 1 - bs = n - bs - 1 by omega]

lemma batchIdxs_succ {n bs : Nat} (hbs : 0 < bs) (hn : 0 < n) :
    batchIdxs n bs = 0 :: (batchIdxs (n - bs) bs).map (· + bs) := by
  unfold batchIdxs
  rw [ceilDiv_succ hbs hn, List.range_succ_eq_map, List.map_cons, Nat.zero_mul,
    List.map_map, List.map_map]
  refine congrArg (0 :: ·) (List.map_congr_left fun i _ => ?_)
  simp only [Function.comp_apply]
  exact Nat.succ_mul i bs

lemma batchIdxs_mem_lt {n bs idx : Nat} (hbs : 0 < bs) (h : idx ∈ batchIdxs n bs) :
    idx < n := by
  unfold batchIdxs at h
  rw [List.mem_map] at h
  obtain ⟨i, hi, rfl⟩ := h
  rw [List.mem_range] at hi
  by_contra hc
  push_neg at hc
  rw [Nat.mul_comm] at hc
  have h2 : n + bs - 1 ≤ bs - 1 + bs * i := by omega
  have h3 : (n + bs - 1) / bs ≤ (bs - 1 + bs * i) / bs := Nat.div_le_div_right h2
  have h4 : (bs - 1 + bs * i) / bs = (bs - 1) / bs + i := Nat.add_mul_div_left (bs - 1) i hbs
  have h5 : (bs - 1) / bs = 0 := Nat.div_eq_of_lt (by omega)
  omega

lemma zipWith_replicate_range' {β : Type} (f : String → Nat → β) (p : String) :
    ∀ (k s : Nat),
      List.zipWith f (List.replicate k p) (List.range' s k) = (List.range' s k).map (f p)
  | 0, _ => rfl
  | k + 1, s => by
    rw [List.replicate_succ, List.range'_succ, List.zipWith_cons_cons, List.map_cons,
      zipWith_replicate_range' f p k (s + 1)]

lemma generateB_replicate (lm : LM) (temp : ℚ) (off k : Nat) (p : String) :
    lm.generateB temp off (List.replicate k p)
      = (List.range k).map (fun j => lm.sample p temp (off + j)) := by
  unfold LM.generateB
  rw [List.length_replicate, List.range_eq_range']
  exact zipWith_replicate_range' _ p k 0

lemma batchFlat {β : Type} {bs : Nat} (hbs : 0 < bs) :
    ∀ (n : Nat) (g : Nat → β),
      (batchIdxs n bs).flatMap
          (fun idx => (List.range (min (n - idx) bs)).map (fun j => g (idx + j)))
        = (List.range n).map g := by
  intro n
  induction n using Nat.strong_induction_on with
  | _ n ih =>
    intro g
    rcases Nat.eq_zero_or_pos n with rfl | hn
    · rw [batchIdxs_zero]
      rfl
    · rw [batchIdxs_succ hbs hn, List.flatMap_cons, List.flatMap_def, List.map_map,
        ← List.flatMap_def]
      have htail :
          (fun idx => (List.range (min (n - (idx + bs)) bs)).map (fun j => g (idx + bs + j)))
            = (fun idx => (List.range (min (n - bs - idx) bs)).map
                (fun j => (fun t => g (bs + t)) (idx + j))) := by
        funext idx
        rw [show n - (idx + bs) = n - bs - idx by omega]
        exact List.map_congr_left fun j _ => congrArg g (by omega)
      rw [show ((fun idx => (List.range (min (n - idx) bs)).map (fun j => g (idx + j)))
            ∘ (· + bs))
          = (fun idx => (List.range (min (n - (idx + bs)) bs)).map (fun j => g (idx + bs + j)))
          from rfl, htail, ih (n - bs) (by omega) (fun t => g (bs + t))]
      have hhead : (List.range (min (n - 0) bs)).map (fun j => g (0 + j))
          = (List.range (min n bs)).map g := by
        rw [Nat.sub_zero]
        exact List.map_congr_left fun j _ => congrArg g (Nat.zero_add j)
      rw [hhead]
      rcases le_or_lt n bs with h | h
      · rw [min_eq_left h, show n - bs = 0 by omega]
        simp
      · rw [min_eq_right h.le]
        conv_rhs => rw [show n = bs + (n - bs) by omega, List.range_add]
        rw [List.map_append, List.map_map]
        rfl

lemma batchedRequests_eq {bs : Nat} (hbs : 0 < bs) (p : String) (n : Nat) :
    batchedRequests p n bs = List.replicate n p := by
  unfold batchedRequests
  calc (batchIdxs n bs).flatMap (fun idx => List.replicate (min (n - idx) bs) p)
      = (batchIdxs n bs).flatMap
          (fun idx => (List.range (min (n - idx) bs)).map (fun j => (fun _ => p) (idx + j))) := by
        refine congrArg _ (funext fun idx => ?_)
        rw [List.map_const', List.length_range]
    _ = (List.range n).map (fun _ => p) := batchFlat hbs n (fun _ => p)
    _ = List.replicate n p := by rw [List.map_const', List.length_range]

lemma batchedGenerate_eq {bs : Nat} (hbs : 0 < bs) (lm : LM) (temp : ℚ) (p : String)
    (n : Nat) :
    batchedGenerate lm temp p n bs = (List.range n).map (fun j => lm.sample p temp j) := by
  unfold batchedGenerate
  calc (batchIdxs n bs).flatMap
        (fun idx => lm.generateB temp idx (List.replicate (min (n - idx) bs) p))
      = (batchIdxs n bs).flatMap
          (fun idx => (List.range (min (n - idx) bs)).map
            (fun j => lm.sample p temp (idx + j))) := by
        exact congrArg _ (funext fun idx => generateB_replicate lm temp idx _ p)
    _ = (List.range n).map (fun j => lm.sample p temp j) := batchFlat hbs n _

lemma generateB_unbatched (lm : LM) (temp : ℚ) (p : String) (n : Nat) :
    lm.generateB temp 0 (List.replicate n p)
      = (List.range n).map (fun j => lm.sample p temp j) := by
  rw [generateB_replicate]
  exact List.map_congr_left fun j _ => congrArg (lm.sample p temp) (Nat.zero_add j)

end Batching

/-- C9: the batched generation loop issues sequential batches each of at
most `bs` copies of the single prompt and at least one copy, it requests
exactly `n` samples in total in order (the flattened request list is `n`
copies of the prompt), and the concatenated outputs equal those of one
unbatched request of `n` copies of the same prompt. -/
theorem batched_generation_refines_unbatched (lm : LM) (temp : ℚ) (prompt : String)
    (n bs : Nat) (hbs : 1 ≤ bs) :
    batchedRequests prompt n bs = List.replicate n prompt ∧
    (∀ idx ∈ batchIdxs n bs, 1 ≤ min (n - idx) bs ∧ min (n - idx) bs ≤ bs) ∧
    batchedGenerate lm temp prompt n bs = lm.generateB temp 0 (List.replicate n prompt) := by
  refine ⟨batchedRequests_eq hbs prompt n, ?_, ?_⟩
  · intro idx hidx
    have hlt := batchIdxs_mem_lt hbs hidx
    exact ⟨le_min (by omega) hbs, min_le_right _ _⟩
  · rw [batchedGenerate_eq hbs, generateB_unbatched]

section Dedup

lemma dedupFirst_cons (x : String) (xs : List String) :
    dedupFirst (x :: xs) = x :: (dedupFirst xs).filter (fun y => y != x) := rfl

lemma dedupFirst_sublist : ∀ l : List String, List.Sublist (dedupFirst l) l
  | [] => List.Sublist.refl []
  | x :: xs =>
    List.Sublist.cons₂ x ((List.filter_sublist _).trans (dedupFirst_sublist xs))

lemma mem_dedupFirst : ∀ (l : List String) (a : String), a ∈ dedupFirst l ↔ a ∈ l
  | [], _ => Iff.rfl
  | x :: xs, a => by
    rw [dedupFirst_cons, List.mem_cons, List.mem_cons, List.mem_filter,
      mem_dedupFirst xs a]
    constructor
    · rintro (rfl | ⟨h, _⟩)
      · exact Or.inl rfl
      · exact Or.inr h
    · rintro (rfl | h)
      · exact Or.inl rfl
      · rcases eq_or_ne a x with rfl | hne
        · exact Or.inl rfl
        · exact Or.inr ⟨h, by simpa using hne⟩

lemma dedupFirst_nodup : ∀ l : List String, (dedupFirst l).Nodup
  | [] => List.nodup_nil
  | x :: xs => by
    rw [dedupFirst_cons, List.nodup_cons]
    refine ⟨fun hx => ?_, (dedupFirst_nodup xs).filter _⟩
    rw [List.mem_filter] at hx
    exact absurd hx.2 (by simp)

lemma dedupFirst_pairwise : ∀ l : List String,
    (dedupFirst l).Pairwise (fun a b => l.indexOf a < l.indexOf b)
  | [] => List.Pairwise.nil
  | x :: xs => by
    rw [dedupFirst_cons, List.pairwise_cons]
    constructor
    · intro b hb
      rw [List.mem_filter] at hb
      have hbx : b ≠ x := by simpa using hb.2
      rw [List.indexOf_cons_self, List.indexOf_cons_ne xs hbx.symm]
      exact Nat.succ_pos _
    · refine ((dedupFirst_pairwise xs).filter (fun y => y != x)).imp_of_mem ?_
      intro a b ha hb hR
      rw [List.mem_filter] at ha hb
      have hax : a ≠ x := by simpa using ha.2
      have hbx : b ≠ x := by simpa using hb.2
      rw [List.indexOf_cons_ne xs hax.symm, List.indexOf_cons_ne xs hbx.symm]
      exact Nat.succ_lt_succ hR

lemma dedupFirst_ne_nil {l : List String} (h : l ≠ []) : dedupFirst l ≠ [] := by
  cases l with
  | nil => exact absurd rfl h
  | cons x xs => rw [dedupFirst_cons]; exact List.cons_ne_nil _ _

end Dedup

section OptMapM

lemma optMapM_length {α β : Type} (f : α → Option β) (l : List α) :
    ∀ {l2 : List β}, optMapM f l = some l2 → l2.length = l.length := by
  induction l with
  | nil =>
    intro l2 h
    simp only [optMapM, Option.some_inj] at h
    rw [← h]
    rfl
  | cons x xs ih =>
    intro l2 h
    simp only [optMapM, Option.bind_eq_some, Option.map_eq_some'] at h
    obtain ⟨y, _, ys, hys, rfl⟩ := h
    simp [ih hys]

lemma optMapM_forall₂ {α β : Type} (f : α → Option β) (l : List α) :
    ∀ {l2 : List β}, optMapM f l = some l2 →
      List.Forall₂ (fun a b => f a = some b) l l2 := by
  induction l with
  | nil =>
    intro l2 h
    simp only [optMapM, Option.some_inj] at h
    rw [← h]
    exact List.Forall₂.nil
  | cons x xs ih =>
    intro l2 h
    simp only [optMapM, Option.bind_eq_some, Option.map_eq_some'] at h
    obtain ⟨y, hy, ys, hys, rfl⟩ := h
    exact List.Forall₂.cons hy (ih hys)

lemma optMapM_eq_none {α β : Type} (f : α → Option β) {l : List α} {a : α}
    (ha : a ∈ l) (hfa : f a = none) : optMapM f l = none := by
  induction l with
  | nil => cases ha
  | cons x xs ih =>
    rcases List.mem_cons.mp ha with rfl | h
    · simp [optMapM, hfa]
    · simp only [optMapM, ih h, Option.map_none']
      cases f x <;> rfl

lemma optMapM_singleton {α β : Type} (f : α → Option β) (a : α) {l : List β}
    (h : optMapM f [a] = some l) : ∃ b, f a = some b ∧ l = [b] := by
  simp only [optMapM, Option.bind_eq_some, Option.map_eq_some', Option.some_inj] at h
  obtain ⟨y, hy, ys, hys, h2⟩ := h
  exact ⟨y, hy, by rw [← h2, ← hys]⟩

end OptMapM

section Replace

lemma removeAllFuel_of_no_occ (pat : List Char) :
    ∀ (fuel : Nat) (s : List Char), hasSubstrChars pat s = false →
      removeAllFuel pat fuel s = s := by
  intro fuel
  induction fuel with
  | zero => intro s _; rfl
  | succ fuel ih =>
    intro s h
    cases s with
    | nil => rfl
    | cons c t =>
      rw [hasSubstrChars, Bool.or_eq_false_iff] at h
      simp [removeAllFuel, h.1, ih t h.2]

lemma pyRemoveAll_of_no_occ {s pat : String} (h : hasSubstr s pat = false) :
    pyRemoveAll s pat = s := by
  unfold pyRemoveAll
  split
  · rfl
  · rw [removeAllFuel_of_no_occ pat.data s.data.length s.data h]

end Replace

/-- C6 (amended): the prompt sent for usefulness scoring is the assembled
prompt with the lead-in literal removed by one left-to-right pass of
non-overlapping replacement; whenever the assembled prompt contains no
occurrence of the literal, the sent prompt is unchanged and contains none
(removal can, for adversarial template text, splice a new occurrence out
of adjacent fragments, so the unconditional no-occurrence reading fails). -/
theorem useful_input_replacement (cfg : Config) (state : State) (action : String) :
    usefulModelInput cfg state action
        = pyRemoveAll (usefulAssembled cfg state action) answerLeadIn ∧
    (hasSubstr (usefulAssembled cfg state action) answerLeadIn = false →
      usefulModelInput cfg state action = usefulAssembled cfg state action ∧
      hasSubstr (usefulModelInput cfg state action) answerLeadIn = false) := by
  refine ⟨rfl, fun h => ?_⟩
  have he : usefulModelInput cfg state action = usefulAssembled cfg state action :=
    pyRemoveAll_of_no_occ h
  exact ⟨he, by rw [he]; exact h⟩

section PipelineInversion

lemma rawStripped_inv (cfg : Config) (lm : LM) (state : State) {o1 : List String}
    (h : rawStripped cfg lm state = some o1) :
    0 < cfg.batchSize ∧ ∃ p, buildPrompt cfg state = some p ∧
      o1 = (List.range (effNActions cfg state)).map
        (fun j => pyStrip (lm.sample p (effTemperature cfg state) j)) := by
  unfold rawStripped at h
  rw [Option.bind_eq_some] at h
  obtain ⟨p, hp, h1b⟩ := h
  by_cases hbs : cfg.batchSize = 0
  · rw [if_pos hbs] at h1b
    exact absurd h1b (by simp)
  · have hbs0 : 0 < cfg.batchSize := Nat.pos_of_ne_zero hbs
    rw [if_neg hbs, batchedGenerate_eq hbs0, Option.some_inj] at h1b
    exact ⟨hbs0, p, hp, by rw [← h1b, List.map_map]; rfl⟩

lemma extractPhase_length (ext : String → List String) (state : State)
    {o1 o2 : List String} (h : extractPhase ext state o1 = some o2) :
    o2.length = o1.length := by
  unfold extractPhase at h
  split at h
  · exact optMapM_length _ _ h
  · rw [Option.some_inj] at h
    rw [← h]

lemma depthPfxPhase_length (cfg : Config) (state : State) (outs : List String) :
    (depthPfxPhase cfg state outs).length = outs.length := by
  unfold depthPfxPhase
  split <;> simp

lemma forceQPhase_length (cfg : Config) {o1 o2 : List String}
    (h : forceQPhase cfg o1 = some o2) : o2.length = o1.length := by
  unfold forceQPhase at h
  split at h
  · exact optMapM_length _ _ h
  · rw [Option.some_inj] at h
    rw [← h]

lemma forcePPhase_length (cfg : Config) {o1 o2 : List String}
    (h : forcePPhase cfg o1 = some o2) : o2.length = o1.length := by
  unfold forcePPhase at h
  split at h
  · exact optMapM_length _ _ h
  · rw [Option.some_inj] at h
    rw [← h]

lemma postPipeline_length (cfg : Config) (lm : LM) (ext : String → List String)
    (state : State) {posts : List String}
    (h : postPipeline cfg lm ext state = some posts) :
    posts.length = effNActions cfg state := by
  unfold postPipeline at h
  simp only [Option.bind_eq_some] at h
  obtain ⟨o1, h1, o2, h2, o3, h3, h4⟩ := h
  obtain ⟨_, p, _, ho1⟩ := rawStripped_inv cfg lm state h1
  have l1 : o1.length = effNActions cfg state := by rw [ho1]; simp
  have l2 := extractPhase_length ext state h2
  have l3 := forceQPhase_length cfg h3
  have l4 := forcePPhase_length cfg h4
  rw [l4, l3, depthPfxPhase_length, l2, l1]

lemma forceQPhase_singleton (cfg : Config) (v : String) {l : List String}
    (h : forceQPhase cfg [v] = some l) :
    ∃ y, l = [y] ∧ (y = v ∨ ∃ oq, cfg.overallQuestion = some oq ∧
      y = cfg.promptD.overallQuestionPfx ++ " " ++ oq) := by
  unfold forceQPhase at h
  split at h
  · obtain ⟨y, hy, rfl⟩ := optMapM_singleton _ _ h
    by_cases hq : hasSubstr v cfg.promptD.overallQuestionPfx = true
    · rw [if_pos hq, Option.map_eq_some'] at hy
      obtain ⟨oq, hoq, rfl⟩ := hy
      exact ⟨_, rfl, Or.inr ⟨oq, hoq, rfl⟩⟩
    · rw [if_neg hq, Option.some_inj] at hy
      exact ⟨y, rfl, Or.inl hy.symm⟩
  · rw [Option.some_inj] at h
    exact ⟨v, h.symm, Or.inl rfl⟩

lemma forcePPhase_singleton (cfg : Config) (v : String) {l : List String}
    (h : forcePPhase cfg [v] = some l) :
    ∃ y, l = [y] ∧ (y = v ∨ ∃ oq, cfg.overallQuestion = some oq ∧
      y = cfg.promptD.overallQuestionPfx ++ " " ++ oq) := by
  unfold forcePPhase at h
  split at h
  · obtain ⟨y, hy, rfl⟩ := optMapM_singleton _ _ h
    rw [Option.map_eq_some'] at hy
    obtain ⟨oq, hoq, h2⟩ := hy
    by_cases hq : (pyLower oq == pyLower v) = true
    · rw [if_pos hq] at h2
      exact ⟨y, rfl, Or.inr ⟨oq, hoq, h2.symm⟩⟩
    · rw [if_neg hq] at h2
      exact ⟨y, rfl, Or.inl h2.symm⟩
  · rw [Option.some_inj] at h
    exact ⟨v, h.symm, Or.inl rfl⟩

end PipelineInversion

/-- C1: with forced termination enabled and the depth limit reached, the
proposal requests a single sample (n_actions = 1) at temperature zero, and
any returned action list is exactly one action that begins with the
configured overall-question-prefix token followed by a space, whatever the
configured n_actions. -/
theorem get_actions_at_depth_limit (cfg : Config) (lm : LM)
    (ext : String → List String) (state : State) (xs : List String)
    (hT : cfg.forceTerminatingOnDepthLimit = true)
    (hD : cfg.depthLimit ≤ state.length + 1)
    (hsome : cfg.get_actions lm ext state = some xs) :
    effNActions cfg state = 1 ∧ effTemperature cfg state = 0 ∧
    ∃ rest : String, xs = [cfg.promptD.overallQuestionPfx ++ " " ++ rest] := by
  have hat : atDepthLimit cfg state = true := by
    unfold atDepthLimit
    rw [hT]
    simpa using hD
  refine ⟨by simp [effNActions, hat], by simp [effTemperature, hat], ?_⟩
  unfold Config.get_actions at hsome
  rw [Option.map_eq_some'] at hsome
  obtain ⟨posts, hpp, hxs⟩ := hsome
  unfold postPipeline at hpp
  simp only [Option.bind_eq_some] at hpp
  obtain ⟨o1, h1, o2, h2, o3, h3, h4⟩ := hpp
  obtain ⟨_, p, _, ho1⟩ := rawStripped_inv cfg lm state h1
  have hn1 : effNActions cfg state = 1 := by simp [effNActions, hat]
  rw [hn1, show List.range 1 = [0] from rfl, List.map_cons, List.map_nil] at ho1
  subst ho1
  have ho2 : ∃ u, o2 = [u] := by
    unfold extractPhase at h2
    split at h2
    · obtain ⟨b, _, hb⟩ := optMapM_singleton _ _ h2
      exact ⟨b, hb⟩
    · rw [Option.some_inj] at h2
      exact ⟨_, h2.symm⟩
  obtain ⟨u, rfl⟩ := ho2
  have hdp : depthPfxPhase cfg state [u]
      = [cfg.promptD.overallQuestionPfx ++ " " ++ u] := by
    unfold depthPfxPhase
    rw [if_pos hat]
    rfl
  rw [hdp] at h3
  obtain ⟨y, rfl, hy⟩ := forceQPhase_singleton cfg _ h3
  obtain ⟨z, rfl, hz⟩ := forcePPhase_singleton cfg _ h4
  rw [← hxs]
  rcases hz with rfl | ⟨oq, _, rfl⟩
  · rcases hy with rfl | ⟨oq, _, rfl⟩
    · exact ⟨u, rfl⟩
    · exact ⟨oq, rfl⟩
  · exact ⟨oq, rfl⟩

/-- C2 (amended to configurations with n_actions at least 1): every list
returned by get_actions is the order-preserving first-occurrence
deduplication of the post-processed outputs: duplicate-free, between 1 and
n_actions elements, a sublist of the post-processed outputs (so retained
elements keep their relative order), covering exactly the values that
occur in them, and ordered by the position of each value's first
occurrence. -/
theorem get_actions_dedup (cfg : Config) (lm : LM) (ext : String → List String)
    (state : State) (xs : List String) (hN : 1 ≤ cfg.nActions)
    (hsome : cfg.get_actions lm ext state = some xs) :
    ∃ posts, postPipeline cfg lm ext state = some posts ∧
      xs = dedupFirst posts ∧ xs.Nodup ∧ 1 ≤ xs.length ∧ xs.length ≤ cfg.nActions ∧
      List.Sublist xs posts ∧ (∀ a, a ∈ xs ↔ a ∈ posts) ∧
      xs.Pairwise (fun a b => posts.indexOf a < posts.indexOf b) := by
  unfold Config.get_actions at hsome
  rw [Option.map_eq_some'] at hsome
  obtain ⟨posts, hpp, hxs⟩ := hsome
  subst hxs
  have hlen := postPipeline_length cfg lm ext state hpp
  have heff1 : 1 ≤ effNActions cfg state := by
    unfold effNActions
    split
    · exact le_refl 1
    · exact hN
  have heffN : effNActions cfg state ≤ cfg.nActions := by
    unfold effNActions
    split
    · exact hN
    · exact le_refl _
  have hpne : posts ≠ [] := by
    intro hnil
    rw [hnil] at hlen
    simp only [List.length_nil] at hlen
    omega
  refine ⟨posts, hpp, rfl, dedupFirst_nodup posts, ?_, ?_, dedupFirst_sublist posts,
    mem_dedupFirst posts, dedupFirst_pairwise posts⟩
  · exact List.length_pos.mpr (dedupFirst_ne_nil hpne)
  · have h5 := (dedupFirst_sublist posts).length_le
    omega

/-- C10: the overall question is bound by update_example (to the full
example text) exactly when one of the two forcing flags is set; with both
flags clear it stays unbound, and a subsequent proposal on the empty state
fails (the prompt concatenates the unbound overall question) instead of
returning actions. -/
theorem update_example_binding (cfg : Config) (ex : String) (lm : LM)
    (ext : String → List String)
    (h1 : cfg.forceOverallPromptOnOverallQuestion = false)
    (h2 : cfg.forceOverallQuestionOnOverallPrompt = false)
    (h0 : cfg.overallQuestion = none) :
    (cfg.update_example ex).overallQuestion = none ∧
    (cfg.update_example ex).get_actions lm ext [] = none ∧
    ∀ (cfg2 : Config) (ex2 : String),
      (cfg2.forceOverallPromptOnOverallQuestion
        || cfg2.forceOverallQuestionOnOverallPrompt) = true →
      (cfg2.update_example ex2).overallQuestion = some ex2 := by
  have hq : (cfg.update_example ex).overallQuestion = none := by
    unfold Config.update_example
    simp [h1, h2, h0]
  refine ⟨hq, ?_, ?_⟩
  · unfold Config.get_actions postPipeline rawStripped buildPrompt
    simp [hq]
  · intro cfg2 ex2 hflag
    unfold Config.update_example
    simp [hflag]

/-- Spec-described net effect of quote normalisation: remove one leading
double quote when present. -/
def stripLeadQuote (l : List Char) : List Char :=
  if l.head? = some '"' then l.drop 1 else l

/-- Spec-described net effect of quote normalisation: remove one trailing
double quote when present. -/
def stripTrailQuote (l : List Char) : List Char :=
  if l.getLast? = some '"' then l.dropLast else l

lemma quoteNormalize_eq (c : Char) (cs : List Char) :
    quoteNormalize c cs = stripTrailQuote (stripLeadQuote (c :: cs)) := by
  unfold quoteNormalize quoteAppend stripLeadQuote stripTrailQuote
  simp only [List.head?_cons, List.drop_one, List.tail_cons]
  by_cases hc : c = '"'
  · subst hc
    rw [if_neg (not_not_intro rfl), if_pos rfl]
    cases cs with
    | nil => rfl
    | cons d ds =>
      rw [List.getLast?_cons_cons]
      by_cases hl : (d :: ds).getLast? = some '"'
      · rw [if_neg (not_not_intro hl), if_pos hl]
        rfl
      · rw [if_pos hl, if_neg hl]
        show ((d :: ds) ++ ['"']).dropLast = d :: ds
        exact List.dropLast_concat
  · have hns : ¬(some c = some '"') := fun he => hc (Option.some_inj.mp he)
    rw [if_pos hc, if_neg hns, List.getLast?_cons_cons]
    by_cases hl : (c :: cs).getLast? = some '"'
    · rw [if_neg (not_not_intro hl), if_pos hl]
      rfl
    · rw [if_pos hl, if_neg hl]
      show ((c :: cs) ++ ['"']).dropLast = c :: cs
      exact List.dropLast_concat

/-- C7 (amended): on the first decomposition step every output goes
through the first-quoted-item extraction: an empty extraction list is a
propagated failure with no fallback action, and so is an empty first item
(the indexing error of reading its first character); a nonempty first item
becomes the action obtained by removing one leading and one trailing
double quote when present (ensure-wrapped in quotes, then the first and
last characters stripped); any failing output fails the whole proposal. -/
theorem first_step_extraction (ext : String → List String) (out q1 : String)
    (rest : List String) :
    (ext out = [] → firstStepExtract ext out = none) ∧
    (ext out = "" :: rest → firstStepExtract ext out = none) ∧
    (ext out = q1 :: rest → q1 ≠ "" →
      firstStepExtract ext out = some ⟨stripTrailQuote (stripLeadQuote q1.data)⟩) ∧
    (∀ (cfg : Config) (lm : LM) (outs : List String),
      rawStripped cfg lm [] = some outs →
      (∃ o ∈ outs, firstStepExtract ext o = none) →
      cfg.get_actions lm ext [] = none) := by
  refine ⟨?_, ?_, ?_, ?_⟩
  · intro h
    unfold firstStepExtract
    rw [h]
  · intro h
    unfold firstStepExtract
    rw [h]
  · intro h hne
    cases hq : q1.data with
    | nil =>
      exact absurd (by cases q1 with | mk d => exact congrArg String.mk hq) hne
    | cons c cs =>
      have hq1 : q1 = ⟨c :: cs⟩ := by
        cases q1 with | mk d => exact congrArg String.mk hq
      have hred : firstStepExtract ext out = some ⟨quoteNormalize c cs⟩ := by
        unfold firstStepExtract
        rw [h, hq1]
      rw [hred, quoteNormalize_eq, ← hq]
  · intro cfg lm outs hraw hex
    obtain ⟨o, ho, hfo⟩ := hex
    unfold Config.get_actions postPipeline
    rw [hraw]
    have hep : extractPhase ext [] outs = none := optMapM_eq_none _ ho hfo
    simp [hep]

/-- A concrete language model used by witnesses: output text records the
global slot index, and both candidate logits are zero. -/
def lmW : LM :=
  { sample := fun _ _ i => "out" ++ toString i, logits := fun _ _ => [0, 0] }

/-- Witness for C9 at n = 5, bs = 2. -/
theorem batched_generation_refines_unbatched_witness :
    batchedRequests "p" 5 2 = List.replicate 5 "p" ∧
    (∀ idx ∈ batchIdxs 5 2, 1 ≤ min (5 - idx) 2 ∧ min (5 - idx) 2 ≤ 2) ∧
    batchedGenerate lmW 0 "p" 5 2 = lmW.generateB 0 0 (List.replicate 5 "p") :=
  batched_generation_refines_unbatched lmW 0 "p" 5 2 (by decide)

/-- A concrete language model whose every sample is the same text. -/
def lmDup : LM := { sample := fun _ _ _ => "dup", logits := fun _ _ => [0, 0] }

/-- A concrete decomposition template for witnesses. -/
def promptW : DecompPrompt :=
  { input := "I\n", questionPfx := "Q: ", subqPfx := fun _ => "SQ:",
    ansPfx := fun _ => "A:", overallQuestionPfx := "Now we can answer the question:" }

/-- A concrete usefulness template for witnesses. -/
def usefulW : UsefulPrompt :=
  { input := "UI\n", questionPfx := "Q: ", subqPfx := fun _ => "SQ:",
    newSubqPfx := fun _ => "NSQ:", usefulPfx := "Useful:" }

/-- A usefulness template whose input field makes the single-pass removal
of the lead-in literal splice a new occurrence together. -/
def usefulSplice : UsefulPrompt :=
  { input := "NoNow we can answer the question: w we can answer the question: ",
    questionPfx := "", subqPfx := fun _ => "", newSubqPfx := fun _ => "",
    usefulPfx := "" }

/-- A concrete configuration at depth limit 2 with the defaults of the
source constructor otherwise. -/
noncomputable def cfgW : Config :=
  { promptD := promptW, usefulP := usefulW, decomposePrompt := "D",
    nActions := 4, batchSize := 2, temperature := 8/10, rewardAlpha := 1/2,
    rewardConfidenceDefault := 8/10, depthLimit := 2,
    forceTerminatingOnDepthLimit := true,
    forceOverallPromptOnOverallQuestion := true,
    forceOverallQuestionOnOverallPrompt := true,
    exampleText := "OQ", overallQuestion := some "OQ" }

noncomputable def cfgB : Config := { cfgW with depthLimit := 5, nActions := 3 }

noncomputable def cfgZ : Config := { cfgW with depthLimit := 5, nActions := 0 }

noncomputable def cfgC7 : Config := { cfgW with depthLimit := 5, nActions := 1 }

noncomputable def cfgC6 : Config := { cfgW with usefulP := usefulSplice, exampleText := "" }

noncomputable def cfgC3 : Config := { cfgW with rewardAlpha := 0 }

noncomputable def cfgC10 : Config :=
  { cfgW with forceOverallPromptOnOverallQuestion := false,
              forceOverallQuestionOnOverallPrompt := false,
              overallQuestion := none }

/-- A concrete state with a single answered sub-question. -/
def stW : State := [("q1", "a1", none)]

/-- Witness for C1: at the depth limit the concrete proposal returns the
single prefixed action. -/
theorem get_actions_at_depth_limit_witness :
    effNActions cfgW stW = 1 ∧ effTemperature cfgW stW = 0 ∧
    ∃ rest : String,
      ["Now we can answer the question: OQ"]
        = [cfgW.promptD.overallQuestionPfx ++ " " ++ rest] :=
  get_actions_at_depth_limit cfgW lmW (fun _ => []) stW
    ["Now we can answer the question: OQ"] (by decide) (by decide) (by decide)

/-- Witness for C2: three identical samples collapse to one action. -/
theorem get_actions_dedup_witness :
    ∃ posts, postPipeline cfgB lmDup (fun _ => []) stW = some posts ∧
      ["dup"] = dedupFirst posts ∧ (["dup"] : List String).Nodup ∧
      1 ≤ (["dup"] : List String).length ∧
      (["dup"] : List String).length ≤ cfgB.nActions ∧
      List.Sublist ["dup"] posts ∧
      (∀ a, a ∈ (["dup"] : List String) ↔ a ∈ posts) ∧
      (["dup"] : List String).Pairwise (fun a b => posts.indexOf a < posts.indexOf b) :=
  get_actions_dedup cfgB lmDup (fun _ => []) stW ["dup"] (by decide) (by decide)

/-- C2 counterexample: with n_actions = 0 (and no forced termination) the
proposal returns the empty list, violating the claimed 1..n_actions size
for every state and configuration. -/
theorem get_actions_nactions_zero :
    cfgZ.get_actions lmW (fun _ => []) stW = some [] := by decide

/-- Witness for C7: a first item with no quotes is used unchanged. -/
theorem first_step_extraction_witness :
    firstStepExtract (fun _ => ["ab"]) "x" = some "ab" := by
  have h := (first_step_extraction (fun _ => ["ab"]) "x" "ab" []).2.2.1 rfl (by decide)
  rw [h]
  decide

/-- C7 counterexample: an extractor returning the empty string as first
item makes the proposal fail (the IndexError of reading its first
character), where the claim as stated would return the empty action. -/
theorem get_actions_empty_first_item :
    cfgC7.get_actions lmW (fun _ => [""]) [] = none := by decide

/-- C6 counterexample: the single-pass removal of the literal splices a
new occurrence together, so the prompt sent for scoring still contains
the literal for this template. -/
theorem useful_input_literal_survives :
    hasSubstr (usefulModelInput cfgC6 [] "") answerLeadIn = true := by decide

/-- Witness for C6 on a template with no occurrence of the literal. -/
theorem useful_input_replacement_witness :
    hasSubstr (usefulAssembled cfgW [] "A") answerLeadIn = false ∧
    usefulModelInput cfgW [] "A" = usefulAssembled cfgW [] "A" ∧
    hasSubstr (usefulModelInput cfgW [] "A") answerLeadIn = false := by
  have h := (useful_input_replacement cfgW [] "A").2 (by decide)
  exact ⟨by decide, h.1, h.2⟩

/-- Witness for C10: with both forcing flags clear, updating the example
leaves the overall question unbound and the first proposal fails. -/
theorem update_example_binding_witness :
    (cfgC10.update_example "E").overallQuestion = none ∧
    (cfgC10.update_example "E").get_actions lmW (fun _ => []) [] = none ∧
    ∀ (cfg2 : Config) (ex2 : String),
      (cfg2.forceOverallPromptOnOverallQuestion
        || cfg2.forceOverallQuestionOnOverallPrompt) = true →
      (cfg2.update_example ex2).overallQuestion = some ex2 :=
  update_example_binding cfgC10 "E" lmW (fun _ => []) (by decide) (by decide) (by decide)

/-- C4: the final reward requires both components: with either absent the
call fails at the assertion and yields no numeric value; with both present
it returns calculate_reward on them, the combined value together with its
r_useful and r_conf components mapping. -/
theorem reward_requires_both (cfg : Config) (state : State) (action : String)
    (ru c : ℝ) (r : Option ℝ) :
    cfg.reward state action none r = none ∧
    cfg.reward state action r none = none ∧
    cfg.reward state action (some ru) (some c)
        = some (cfg.calculate_reward ru (some c)) ∧
    (cfg.calculate_reward ru (some c)).2 = [("r_useful", ru), ("r_conf", c)] := by
  refine ⟨?_, ?_, rfl, rfl⟩
  · cases r <;> rfl
  · cases r <;> rfl

/-- C3 counterexample: with alpha = 0 the combiner returns r_conf itself
(0 ** 0 = 1 in Python float arithmetic), so combine(0, 1/2) = 1/2, not 0,
refuting the zero identity claimed for every alpha in [0,1]. -/
theorem calculate_reward_alpha_zero :
    (cfgC3.calculate_reward 0 (some (1/2))).1 ≠ 0 := by
  have h : (cfgC3.calculate_reward 0 (some (1/2))).1 = 1/2 := by
    show (0:ℝ) ^ cfgC3.rewardAlpha * ((1:ℝ)/2) ^ (1 - cfgC3.rewardAlpha) = 1/2
    rw [show cfgC3.rewardAlpha = 0 from rfl, Real.rpow_zero, sub_zero, Real.rpow_one,
      one_mul]
  rw [h]
  norm_num

/-- C3 (amended: the zero identity needs alpha > 0, since 0.0 ** 0.0 = 1.0
makes combine(0, x) = x at alpha = 0): for alpha in [0,1] the combiner
computes the weighted geometric mean, maps (1,1) to 1, and maps (0,x) to 0
for every x > 0 whenever alpha is positive. -/
theorem calculate_reward_formula (cfg : Config) (h0 : 0 ≤ cfg.rewardAlpha)
    (h1 : cfg.rewardAlpha ≤ 1) :
    (∀ u rc : ℝ, (cfg.calculate_reward u (some rc)).1
        = u ^ cfg.rewardAlpha * rc ^ (1 - cfg.rewardAlpha)) ∧
    (cfg.calculate_reward 1 (some 1)).1 = 1 ∧
    (0 < cfg.rewardAlpha → ∀ x : ℝ, 0 < x →
      (cfg.calculate_reward 0 (some x)).1 = 0) := by
  refine ⟨fun u rc => rfl, ?_, ?_⟩
  · show (1:ℝ) ^ cfg.rewardAlpha * (1:ℝ) ^ (1 - cfg.rewardAlpha) = 1
    rw [Real.one_rpow, Real.one_rpow, one_mul]
  · intro ha x _
    show (0:ℝ) ^ cfg.rewardAlpha * x ^ (1 - cfg.rewardAlpha) = 0
    rw [Real.zero_rpow (ne_of_gt ha), zero_mul]

/-- Witness for C3 at alpha = 1/2. -/
theorem calculate_reward_formula_witness :
    (∀ u rc : ℝ, (cfgW.calculate_reward u (some rc)).1
        = u ^ cfgW.rewardAlpha * rc ^ (1 - cfgW.rewardAlpha)) ∧
    (cfgW.calculate_reward 1 (some 1)).1 = 1 ∧
    (0 < cfgW.rewardAlpha → ∀ x : ℝ, 0 < x →
      (cfgW.calculate_reward 0 (some x)).1 = 0) :=
  calculate_reward_formula cfgW
    (by rw [show cfgW.rewardAlpha = (1:ℝ)/2 from rfl]; norm_num)
    (by rw [show cfgW.rewardAlpha = (1:ℝ)/2 from rfl]; norm_num)

/-- C8: with alpha strictly between 0 and 1 the combiner is monotone
non-decreasing in each argument on [0,1] with the other held fixed. -/
theorem calculate_reward_monotone (cfg : Config)
    (h0 : 0 < cfg.rewardAlpha) (h1 : cfg.rewardAlpha < 1) :
    (∀ u₁ u₂ c : ℝ, 0 ≤ u₁ → u₁ ≤ u₂ → u₂ ≤ 1 → 0 ≤ c → c ≤ 1 →
      (cfg.calculate_reward u₁ (some c)).1 ≤ (cfg.calculate_reward u₂ (some c)).1) ∧
    (∀ u c₁ c₂ : ℝ, 0 ≤ u → u ≤ 1 → 0 ≤ c₁ → c₁ ≤ c₂ → c₂ ≤ 1 →
      (cfg.calculate_reward u (some c₁)).1 ≤ (cfg.calculate_reward u (some c₂)).1) := by
  constructor
  · intro u₁ u₂ c hu1 hu12 _ hc0 _
    show u₁ ^ cfg.rewardAlpha * c ^ (1 - cfg.rewardAlpha)
        ≤ u₂ ^ cfg.rewardAlpha * c ^ (1 - cfg.rewardAlpha)
    exact mul_le_mul_of_nonneg_right
      (Real.rpow_le_rpow hu1 hu12 (le_of_lt h0))
      (Real.rpow_nonneg hc0 _)
  · intro u c₁ c₂ hu0 _ hc10 hc12 _
    show u ^ cfg.rewardAlpha * c₁ ^ (1 - cfg.rewardAlpha)
        ≤ u ^ cfg.rewardAlpha * c₂ ^ (1 - cfg.rewardAlpha)
    exact mul_le_mul_of_nonneg_left
      (Real.rpow_le_rpow hc10 hc12 (by linarith))
      (Real.rpow_nonneg hu0 _)

/-- Witness for C8 at alpha = 1/2 on the corners of the unit square. -/
theorem calculate_reward_monotone_witness :
    (cfgW.calculate_reward 0 (some 1)).1 ≤ (cfgW.calculate_reward 1 (some 1)).1 ∧
    (cfgW.calculate_reward 1 (some 0)).1 ≤ (cfgW.calculate_reward 1 (some 1)).1 := by
  have h := calculate_reward_monotone cfgW
    (by rw [show cfgW.rewardAlpha = (1:ℝ)/2 from rfl]; norm_num)
    (by rw [show cfgW.rewardAlpha = (1:ℝ)/2 from rfl]; norm_num)
  exact ⟨h.1 0 1 1 le_rfl zero_le_one le_rfl zero_le_one le_rfl,
    h.2 1 0 1 zero_le_one le_rfl le_rfl zero_le_one le_rfl⟩

/-- C5: fast_reward computes r_useful as the softmax probability mass on
the Yes logit over exactly the two candidate logits for Yes and No, a
value in [0,1]; it returns the combined reward using the default
confidence and a diagnostics mapping whose only key is r_useful. -/
theorem fast_reward_softmax (cfg : Config) (lm : LM) (state : State) (action : String)
    (a b : ℝ)
    (h : lm.logits (usefulModelInput cfg state action) ["Yes", "No"] = [a, b]) :
    (cfg.fast_reward lm state action).2
        = [("r_useful", Real.exp a / (Real.exp a + Real.exp b))] ∧
    (cfg.fast_reward lm state action).1
        = (cfg.calculate_reward (Real.exp a / (Real.exp a + Real.exp b)) none).1 ∧
    0 ≤ Real.exp a / (Real.exp a + Real.exp b) ∧
    Real.exp a / (Real.exp a + Real.exp b) ≤ 1 := by
  have hsum : 0 < Real.exp a + Real.exp b := by positivity
  have hp : (softmaxList (lm.logits (usefulModelInput cfg state action)
      ["Yes", "No"])).getD 0 0 = Real.exp a / (Real.exp a + Real.exp b) := by
    rw [h]
    unfold softmaxList
    simp
  refine ⟨?_, ?_, ?_, ?_⟩
  · show [("r_useful", (softmaxList (lm.logits (usefulModelInput cfg state action)
        ["Yes", "No"])).getD 0 0)] = _
    rw [hp]
  · show (cfg.calculate_reward ((softmaxList (lm.logits (usefulModelInput cfg state action)
        ["Yes", "No"])).getD 0 0) none).1 = _
    rw [hp]
  · positivity
  · rw [div_le_one hsum]
    exact le_add_of_nonneg_right (Real.exp_pos b).le

/-- Witness for C5 with both logits zero. -/
theorem fast_reward_softmax_witness :
    (cfgW.fast_reward lmW [] "A").2
        = [("r_useful", Real.exp 0 / (Real.exp 0 + Real.exp 0))] ∧
    (cfgW.fast_reward lmW [] "A").1
        = (cfgW.calculate_reward (Real.exp 0 / (Real.exp 0 + Real.exp 0)) none).1 ∧
    0 ≤ Real.exp 0 / (Real.exp 0 + Real.exp 0) ∧
    Real.exp 0 / (Real.exp 0 + Real.exp 0) ≤ 1 :=
  fast_reward_softmax cfgW lmW [] "A" 0 0 rfl

end StrategyQA
